import Mathlib

/-!
Verification development for the `cleanup-profiles` batch job
(Go sources: `cmd/cleanup/cleanup.go` and the `unnamed` revisions,
with `part_002` the complete current program).

The Go code is shallowly embedded: nullable `*string` columns become
`Option String`, Go `map[string]string` becomes `String → Option String`
with overwrite-on-insert semantics, and the row scans become folds over
lists of rows.  Side effects (SQL, HTTP, `net.LookupMX`) are abstracted
as explicit parameters / oracles so that the decision logic itself is a
pure function, exactly as it is in the source (the decisions read only
the in-memory maps and the candidate row's fields).
-/

namespace CleanupProfiles

/-- One row of the `identities` table as scanned by `cleanupProfiles`
(`select id, uuid, source, name, username, email ...`): `id` and `source`
are `NOT NULL`, the rest are nullable. -/
structure IdentityRow where
  id : String
  uuid : Option String
  source : String
  name : Option String
  username : Option String
  email : Option String

/-- Overwrite-on-insert update of a Go `map[string]string`, embedded as a
lookup function. -/
def mapSet (m : String → Option String) (k v : String) : String → Option String :=
  fun q => if q = k then some v else m q

/-- Membership update of a Go `map[string]struct\x7b\x7d` (a set of keys). -/
def setAdd (s : String → Bool) (k : String) : String → Bool :=
  fun q => if q = k then true else s q

/-- Embedding of the closure `getKey` in `cleanupProfiles`
(part_002 lines 461-470): start from `source`, append `":" + *username`
when `username != nil && *username != ""`, then append `":" + *email`
when `email != nil && *email != ""`.  Note the Go code tests only for
`nil` and for the empty string; it does NOT trim whitespace. -/
def getKey (source : String) (username email : Option String) : String :=
  let key := source
  let key :=
    match username with
    | some u => if u ≠ "" then key ++ ":" ++ u else key
    | none => key
  match email with
  | some e => if e ≠ "" then key ++ ":" ++ e else key
  | none => key

/-- Key of a row: `getKey(source, username, email)` exactly as both
scan loops and the worker callback compute it. -/
def rowKey (r : IdentityRow) : String :=
  getKey r.source r.username r.email

/-- State built by the second scan loop of `cleanupProfiles`
(part_002 lines 569-587): the duplicate-detection set `emptyMap` and the
two target maps `idMap` and `uuidMap`. -/
structure TargetIndex where
  emptyMap : String → Bool
  idMap : String → Option String
  uuidMap : String → Option String

/-- Initial state of the target-index scan: all three maps empty. -/
def TargetIndex.init : TargetIndex :=
  { emptyMap := fun _ => false, idMap := fun _ => none, uuidMap := fun _ => none }

/-- One iteration of the target-population scan loop (part_002 lines
570-587): compute the row's key; if the key is already in `emptyMap` the
code only prints `empty names: non-unique key` (the `continue` statement
is commented out); then it unconditionally stores the current row's `id`
under the key in `idMap`, and, when `uuid` is non-null, the current row's
`uuid` in `uuidMap`.  A duplicate key therefore OVERWRITES the earlier
mapping. -/
def scanTargetRow (st : TargetIndex) (r : IdentityRow) : TargetIndex :=
  { emptyMap := setAdd st.emptyMap (rowKey r)
    idMap := mapSet st.idMap (rowKey r) r.id
    uuidMap :=
      match r.uuid with
      | some u => mapSet st.uuidMap (rowKey r) u
      | none => st.uuidMap }

/-- The whole target-population scan: a fold of `scanTargetRow` over the
rows of the empty/null-name query, in scan order. -/
def buildTargetIndex (rows : List IdentityRow) : TargetIndex :=
  rows.foldl scanTargetRow TargetIndex.init

/-- Decision taken by the worker callback `processIdentity` for one
repair candidate. -/
inductive MergeDecision where
  | skip
  | merge (sourceUUID targetUUID : String)
deriving DecidableEq

/-- Pure decision logic of the worker callback `processIdentity`
(part_002 lines 471-514): look the candidate's key up in `uuidMap`
(absent: return, a no-op); a `nil` candidate `uuid` returns; a candidate
`uuid` equal to the target's returns; otherwise the candidate's `uuid`
is merged into the target's `uuid`.  The `idMap` read and the
`id != uuid` test in the source only choose a log line and do not affect
the decision. -/
def processIdentity (uuidMap : String → Option String) (r : IdentityRow) : MergeDecision :=
  match uuidMap (rowKey r) with
  | none => .skip
  | some uuid2 =>
    match r.uuid with
    | none => .skip
    | some uuid => if uuid = uuid2 then .skip else .merge uuid uuid2

/-! Email validation (`isValidDomain` / `isValidEmail`, part_002 lines
88-164).  Strings are manipulated through their character lists; the
`net.LookupMX` call is abstracted as an oracle `mx : String → Bool`
("lookup succeeded and returned at least one record") and the shared
`emailsCache` map is threaded explicitly as an association list whose
most recent entry shadows older ones (Go map overwrite). -/

/-- Character class of the Go regexp `\s` (RE2, non-Unicode classes):
tab, newline, vertical tab, form feed, carriage return, space. -/
def isRESpace (c : Char) : Bool :=
  c = ' ' || c = '\t' || c = '\n' || c = Char.ofNat 11 || c = Char.ofNat 12 || c = '\r'

/-- Worker for `collapseWS`: the flag records whether the previous
character belonged to a whitespace run whose replacement space was
already emitted. -/
def collapseWSAux : Bool → List Char → List Char
  | _, [] => []
  | inRun, c :: cs =>
    if isRESpace c then
      if inRun then collapseWSAux true cs else ' ' :: collapseWSAux true cs
    else c :: collapseWSAux false cs

/-- Embedding of `WhiteSpace.ReplaceAllString(s, " ")` where `WhiteSpace`
is the regexp `\s+`: every maximal run of whitespace characters becomes
a single space. -/
def collapseWS (s : List Char) : List Char :=
  collapseWSAux false s

/-- Does the pattern start the string (both as character lists)? -/
def startsWithL : List Char → List Char → Bool
  | _, [] => true
  | [], _ :: _ => false
  | c :: cs, p :: ps => c = p && startsWithL cs ps

/-- Embedding of Go `strings.Contains`. -/
def containsL : List Char → List Char → Bool
  | [], pat => pat.isEmpty
  | c :: cs, pat => startsWithL (c :: cs) pat || containsL cs pat

/-- The pattern/replacement pairs of `EmailReplacer`, in argument order. -/
def replacerPairs : List (List Char × List Char) :=
  [(" at ".data, "@".data), (" AT ".data, "@".data), (" At ".data, "@".data),
   (" dot ".data, ".".data), (" DOT ".data, ".".data), (" Dot ".data, ".".data),
   ("<".data, []), (">".data, [])]

/-- Try each pattern of `pairs` at the head of `s`, in order; on the
first match return its replacement and the remaining input. -/
def tryReplacers (pairs : List (List Char × List Char)) (s : List Char) :
    Option (List Char × List Char) :=
  match pairs with
  | [] => none
  | (pat, rep) :: rest =>
    if startsWithL s pat then some (rep, s.drop pat.length)
    else tryReplacers rest s

/-- Embedding of `EmailReplacer.Replace`: scan left to right; at each
position apply the first matching pattern (patterns are tried in
argument order) without overlapping, otherwise keep the character.  All
patterns are non-empty, so `fuel = s.length` always suffices. -/
def applyReplacer (fuel : Nat) (s : List Char) : List Char :=
  match fuel, s with
  | 0, s => s
  | _ + 1, [] => []
  | f + 1, c :: cs =>
    match tryReplacers replacerPairs (c :: cs) with
    | some (rep, rest) => rep ++ applyReplacer f rest
    | none => c :: applyReplacer f cs

/-- Character class of Go `strings.TrimSpace` restricted to ASCII
(`unicode.IsSpace`): tab, newline, vertical tab, form feed, carriage
return, space. -/
def isGoSpace (c : Char) : Bool :=
  c = ' ' || c = '\t' || c = '\n' || c = Char.ofNat 11 || c = Char.ofNat 12 || c = '\r'

/-- Embedding of `strings.TrimSpace`. -/
def trimSpace (s : List Char) : List Char :=
  ((s.dropWhile isGoSpace).reverse.dropWhile isGoSpace).reverse

/-- Split a character list on a separator character; like Go
`strings.Split` with a one-character separator. -/
def splitOnChar (sep : Char) : List Char → List (List Char)
  | [] => [[]]
  | c :: cs =>
    if c = sep then [] :: splitOnChar sep cs
    else
      match splitOnChar sep cs with
      | [] => [[c]]
      | h :: t => (c :: h) :: t

/-- Character class of the local part of `EmailRegex`:
`[a-zA-Z0-9.!#$%&'*+\/=?^_`{|}~-]` (the apostrophe, backtick and brace
characters are written via their code points). -/
def isLocalChar (c : Char) : Bool :=
  c.isAlphanum || c = '.' || c = '!' || c = '#' || c = '$' || c = '%' || c = '&' ||
  c = '*' || c = '+' || c = '/' || c = '=' || c = '?' || c = '^' || c = '_' ||
  c = '~' || c = '-' || c = Char.ofNat 39 || c = Char.ofNat 96 ||
  c = Char.ofNat 123 || c = Char.ofNat 124 || c = Char.ofNat 125

/-- Characters allowed inside a domain label of `EmailRegex`. -/
def isLabelChar (c : Char) : Bool :=
  c.isAlphanum || c = '-'

/-- One domain label of `EmailRegex`:
`[a-zA-Z0-9](?:[a-zA-Z0-9-]{0,61}[a-zA-Z0-9])?` — one to 63 characters
over alphanumerics and hyphens, first and last alphanumeric. -/
def labelOk (l : List Char) : Bool :=
  match l.head?, l.getLast? with
  | some a, some b => a.isAlphanum && b.isAlphanum && decide (l.length ≤ 63) && l.all isLabelChar
  | _, _ => false

/-- Domain part of `EmailRegex`: dot-separated labels, each valid. -/
def domainOk (d : List Char) : Bool :=
  (splitOnChar '.' d).all labelOk

/-- Total matcher for the anchored `EmailRegex`: a non-empty run of
local characters, one `@`, then a valid domain.  Since `@` belongs to
neither character class, the regex matches exactly the strings of this
shape, with the split at the first `@`. -/
def emailRegexMatch (s : List Char) : Bool :=
  let lp := s.takeWhile (fun c => c ≠ '@')
  match s.dropWhile (fun c => c ≠ '@') with
  | '@' :: d => !lp.isEmpty && lp.all isLocalChar && domainOk d
  | _ => false

/-- Embedding of `isValidDomain` (part_002 lines 90-121): the dead
length guard `l < 4 && l > 254` (unsatisfiable), a cache probe keyed by
the raw argument, then the MX lookup; the deferred store writes the
result under the raw argument. -/
def isValidDomain (mx : String → Bool) (cache : List (String × Bool)) (domain : String) :
    Bool × List (String × Bool) :=
  let l := domain.length
  if l < 4 ∧ l > 254 then (false, cache)
  else
    match cache.lookup domain with
    | some valid => (valid, cache)
    | none =>
      let valid := mx domain
      (valid, (domain, valid) :: cache)

/-- Normalization pipeline applied by `isValidEmail` after its cache
probe: collapse whitespace runs, apply `EmailReplacer`, trim, keep the
first space-separated token.  Because the Go deferred cache store reads
the mutated `email` variable, this normalized string — not the raw
input — is the key under which `isValidEmail` records its result. -/
def normalizeEmail (email : String) : String :=
  let s := collapseWS email.data
  let s := trimSpace (applyReplacer s.length s)
  String.mk (s.takeWhile (fun c => c ≠ ' '))

/-- Embedding of `isValidEmail` (part_002 lines 125-164): the dead
length guard `l < 6 && l > 254`, a cache probe keyed by the RAW input,
then normalization, the regex, and (when `validateDomain`) an
`isValidDomain` call on the part after the first `@`; the deferred
store writes the result under the NORMALIZED string. -/
def isValidEmail (mx : String → Bool) (cache : List (String × Bool)) (email : String)
    (validateDomain : Bool) : Bool × List (String × Bool) :=
  let l := email.length
  if l < 6 ∧ l > 254 then (false, cache)
  else
    match cache.lookup email with
    | some valid => (valid, cache)
    | none =>
      let e2 := normalizeEmail email
      if emailRegexMatch e2.data then
        if validateDomain then
          match splitOnChar '@' e2.data with
          | _ :: d :: _ =>
            let r := isValidDomain mx cache (String.mk d)
            if r.1 then (true, (e2, true) :: r.2) else (false, (e2, false) :: r.2)
          | _ => (false, (e2, false) :: cache)
        else (true, (e2, true) :: cache)
      else (false, (e2, false) :: cache)

/-! Worker pool (`cleanupProfiles` lines 597-629, and the identical
loops in `cleanupEmails`).  The dispatcher spawns one goroutine per
index; `nThreads` counts the units that were dispatched but whose
result has not yet been read from the unbuffered channel `ch` — the
units in flight.  Whenever the counter reaches `thrN` one result is
drained before the next dispatch, and after the loop all remaining
results are drained.  Completion order is chosen by the Go scheduler;
it is modelled by a function `sched` picking which in-flight unit's
result is read at each drain. -/

/-- Dispatcher state: the units in flight (dispatched, result not yet
read), the results read so far (in read order), and the peak number of
units that were simultaneously in flight. -/
structure PoolState where
  inFlight : List Nat
  recvd : List Nat
  peak : Nat

/-- Read one result from the channel: the scheduler picks which of the
in-flight units completes (the choice is reduced modulo the number of
in-flight units so that any `sched` is a valid schedule). -/
def poolRecv (sched : List Nat → Nat) (st : PoolState) : PoolState :=
  match st.inFlight with
  | [] => st
  | c :: cs =>
    let fl := c :: cs
    let j := sched fl % fl.length
    { inFlight := fl.eraseIdx j
      recvd := st.recvd ++ [fl.getD j 0]
      peak := st.peak }

/-- One iteration of the dispatch loop: spawn unit `i` (it joins the
in-flight set), record the new in-flight count in `peak`, and, when the
count has reached the thread budget `thrN`, read one result. -/
def poolStep (thrN : Nat) (sched : List Nat → Nat) (st : PoolState) (i : Nat) : PoolState :=
  if (st.inFlight ++ [i]).length = thrN then
    poolRecv sched
      { inFlight := st.inFlight ++ [i], recvd := st.recvd,
        peak := max st.peak (st.inFlight ++ [i]).length }
  else
    { inFlight := st.inFlight ++ [i], recvd := st.recvd,
      peak := max st.peak (st.inFlight ++ [i]).length }

/-- The final drain loop `for nThreads > 0`: read results until no unit
is in flight.  The fuel is the number of in-flight units, which is
exactly how many reads the loop performs. -/
def poolDrain (sched : List Nat → Nat) : Nat → PoolState → PoolState
  | 0, st => st
  | f + 1, st => poolDrain sched f (poolRecv sched st)

/-- The whole concurrent branch of the pool (`if thrN > 0`): dispatch
units `0 .. n-1` in order, then drain. -/
def runPool (thrN : Nat) (sched : List Nat → Nat) (n : Nat) : PoolState :=
  let st := (List.range n).foldl (poolStep thrN sched) ⟨[], [], 0⟩
  poolDrain sched st.inFlight.length st

/-- Per-unit outcome of the merge callback, fixed per index: did the
unit bump the shared `merges` counter, and which error (if any) did it
send back on the channel. -/
structure UnitOutcome where
  merged : Bool
  err : Option String

/-- Final value of the shared `merges` counter after the pool: one
increment per received unit whose outcome merged. -/
def poolMerges (st : PoolState) (unit : Nat → UnitOutcome) : Nat :=
  st.recvd.countP (fun i => (unit i).merged)

/-- The aggregated `errs` list after the pool: the non-nil errors in
the order the results were read from the channel. -/
def poolErrors (st : PoolState) (unit : Nat → UnitOutcome) : List String :=
  st.recvd.filterMap (fun i => (unit i).err)

/-- Which branch of the pool the code takes: the Go source selects the
goroutine/channel machinery whenever `thrN > 0` and the plain
sequential loop otherwise. -/
inductive PoolMode where
  | channel
  | sequential
deriving DecidableEq

/-- Branch selection of the pool (`if thrN > 0` at part_002 line 598). -/
def poolMode (thrN : Nat) : PoolMode :=
  if thrN > 0 then .channel else .sequential

/-- Whether the shared-counter mutex handle is still `nil` when the
units run: `mtx = &sync.Mutex\x7b\x7d` is executed only inside the
`thrN > 0` branch (part_002 line 599), so the handle is `nil` exactly
in the sequential branch. -/
def poolMtxIsNil (thrN : Nat) : Bool :=
  match poolMode thrN with
  | .channel => false
  | .sequential => true

/-- Embedding of `getThreadsNum` (part_002 lines 273-302).  The
`N_CPUS` environment variable is passed as `none` when unset or
unparsable (Atoi error), `some v` otherwise; `numCPU` is
`runtime.NumCPU()`.  A parsed value below zero is discarded; a positive
value is capped at `numCPU`; otherwise `numCPU` is used. -/
def getThreadsNum (envCPUs : Option Int) (numCPU : Nat) : Nat :=
  let nCPUs : Int :=
    match envCPUs with
    | none => 0
    | some v => if v < 0 then 0 else v
  if nCPUs > 0 then min nCPUs.toNat numCPU else numCPU

/-- With at least one CPU available, `getThreadsNum` never returns 0:
the purely sequential pool branch (`thrN = 0`) is unreachable in
practice. -/
theorem getThreadsNum_pos (env : Option Int) (numCPU : Nat) (h : 1 ≤ numCPU) :
    1 ≤ getThreadsNum env numCPU := by
  unfold getThreadsNum
  cases env with
  | none => simpa using h
  | some v =>
    by_cases hv : v < 0
    · simp only [if_pos hv]
      simpa using h
    · simp only [if_neg hv]
      by_cases hp : v > 0
      · rw [if_pos hp]
        have h1 : 1 ≤ v.toNat := by omega
        exact le_min h1 h
      · have hz : v = 0 := by omega
        subst hz
        simpa using h

/-! Email-cleanup unit (`cleanupEmails`, part_002 lines 696-751).  The
database is abstracted as an oracle from issued statements to either an
error string or an affected-row count, and `uuidAffs` (a cached wrapper
around `uuid.GenerateIdentity`) as a deterministic hash oracle over its
four arguments. -/

/-- A write statement issued by the email-cleanup unit. -/
inductive DbOp where
  | updateIdentity (newId oldId : String)
  | deleteIdentity (oldId : String)
deriving DecidableEq

/-- One row of the identities query of `cleanupEmails` (`name` and
`username` are coalesced to `""` by the query, so nothing is nullable
here). -/
structure EmailRow where
  id : String
  source : String
  name : String
  username : String
  email : String

/-- What one email-cleanup unit did: its returned error (sent on the
channel), the statements it issued in order, whether it bumped the
`updates` and `mismatch` counters, and the email cache it left behind. -/
structure EmailUnitResult where
  err : Option String
  ops : List DbOp
  updatesInc : Bool
  mismatchInc : Bool
  cache : List (String × Bool)

/-- Embedding of the identities `processIdentity` closure of
`cleanupEmails`: validate the email; when invalid, recompute the row id
as `uuidAffs(source, "", name, username)` and update the row; when the
update fails with an error containing `Duplicate entry`, delete the
current row instead; any other failure (of the update or of the
delete) is the unit's error; on success with a non-zero affected count
bump `updates` (and `mismatch` when the re-derived
`uuidAffs(source, email, name, username)` differs from the stored id). -/
def processEmailIdentity (mx : String → Bool) (db : DbOp → Except String Nat)
    (hash : String → String → String → String → String) (validateDomain : Bool)
    (cache : List (String × Bool)) (r : EmailRow) : EmailUnitResult :=
  let v := isValidEmail mx cache r.email validateDomain
  if v.1 then
    { err := none, ops := [], updatesInc := false, mismatchInc := false, cache := v.2 }
  else
    let prevUUID := hash r.source r.email r.name r.username
    let uuid := hash r.source "" r.name r.username
    let finish : Nat → List DbOp → EmailUnitResult := fun affected ops =>
      if affected = 0 then
        { err := none, ops := ops, updatesInc := false, mismatchInc := false, cache := v.2 }
      else
        { err := none, ops := ops, updatesInc := true,
          mismatchInc := prevUUID ≠ r.id, cache := v.2 }
    match db (.updateIdentity uuid r.id) with
    | .ok affected => finish affected [.updateIdentity uuid r.id]
    | .error e =>
      if containsL e.data "Duplicate entry".data then
        match db (.deleteIdentity r.id) with
        | .ok affected =>
          finish affected [.updateIdentity uuid r.id, .deleteIdentity r.id]
        | .error e2 =>
          { err := some e2, ops := [.updateIdentity uuid r.id, .deleteIdentity r.id],
            updatesInc := false, mismatchInc := false, cache := v.2 }
      else
        { err := some e, ops := [.updateIdentity uuid r.id],
          updatesInc := false, mismatchInc := false, cache := v.2 }

/-! Helper lemmas about the pool model. -/

/-- Removing the element at a valid index and putting it back in front
is a permutation of the original list. -/
theorem perm_getD_cons_eraseIdx (l : List Nat) (j : Nat) (h : j < l.length) :
    List.Perm (l.getD j 0 :: l.eraseIdx j) l := by
  have h2 : l.getD j 0 = l[j] := List.getD_eq_getElem l 0 h
  rw [h2, List.eraseIdx_eq_take_drop_succ]
  calc List.Perm (l[j] :: (l.take j ++ l.drop (j+1))) (l.take j ++ l[j] :: l.drop (j+1)) :=
        List.perm_middle.symm
    _ = l := by rw [List.getElem_cons_drop, List.take_append_drop]

/-- Reading one result preserves the multiset of dispatched units. -/
theorem poolRecv_perm (sched : List Nat → Nat) (st : PoolState) :
    List.Perm ((poolRecv sched st).recvd ++ (poolRecv sched st).inFlight)
      (st.recvd ++ st.inFlight) := by
  obtain ⟨fl, recvd, peak⟩ := st
  cases fl with
  | nil => simp [poolRecv]
  | cons c cs =>
    have hlen : sched (c :: cs) % (c :: cs).length < (c :: cs).length :=
      Nat.mod_lt _ (by simp)
    have hperm := perm_getD_cons_eraseIdx (c :: cs) (sched (c :: cs) % (c :: cs).length) hlen
    simp only [poolRecv]
    rw [List.append_assoc, List.singleton_append]
    exact List.Perm.append_left recvd hperm

/-- Reading one result removes exactly one unit from the in-flight set. -/
theorem poolRecv_length (sched : List Nat → Nat) (st : PoolState) (h : st.inFlight ≠ []) :
    (poolRecv sched st).inFlight.length = st.inFlight.length - 1 := by
  obtain ⟨fl, recvd, peak⟩ := st
  cases fl with
  | nil => simp at h
  | cons c cs =>
    have hlen : sched (c :: cs) % (c :: cs).length < (c :: cs).length :=
      Nat.mod_lt _ (by simp)
    simp only [poolRecv]
    rw [List.length_eraseIdx]
    simp only [List.length_cons] at hlen ⊢
    simp [hlen]

/-- Reading one result never changes the recorded peak. -/
theorem poolRecv_peak (sched : List Nat → Nat) (st : PoolState) :
    (poolRecv sched st).peak = st.peak := by
  obtain ⟨fl, recvd, peak⟩ := st
  cases fl with
  | nil => rfl
  | cons c cs => rfl

/-- One dispatch step keeps the in-flight count strictly below the
budget, appends the dispatched unit to the multiset of units accounted
for, and keeps the peak below `max` of old peak and budget. -/
theorem poolStep_invariant (thrN : Nat) (sched : List Nat → Nat) (st : PoolState) (i : Nat)
    (hT : 1 ≤ thrN) (hlen : st.inFlight.length < thrN) :
    (poolStep thrN sched st i).inFlight.length < thrN ∧
    List.Perm ((poolStep thrN sched st i).recvd ++ (poolStep thrN sched st i).inFlight)
      (st.recvd ++ st.inFlight ++ [i]) ∧
    (poolStep thrN sched st i).peak ≤ max st.peak thrN := by
  have hfl_len : (st.inFlight ++ [i]).length = st.inFlight.length + 1 := by simp
  have hperm0 : st.recvd ++ (st.inFlight ++ [i]) = st.recvd ++ st.inFlight ++ [i] :=
    (List.append_assoc _ _ _).symm
  have hpeak0 : max st.peak (st.inFlight ++ [i]).length ≤ max st.peak thrN := by
    rw [hfl_len]; omega
  unfold poolStep
  by_cases hc : (st.inFlight ++ [i]).length = thrN
  · rw [if_pos hc]
    refine ⟨?_, ?_, ?_⟩
    · rw [poolRecv_length _ _ (by simp)]
      simp only [hc]
      omega
    · exact (poolRecv_perm sched _).trans (by rw [hperm0])
    · rw [poolRecv_peak]
      exact hpeak0
  · rw [if_neg hc]
    refine ⟨?_, by rw [hperm0], hpeak0⟩
    show (st.inFlight ++ [i]).length < thrN
    omega

/-- Invariant of the whole dispatch loop: starting strictly below the
budget, the in-flight count stays strictly below it after every
iteration, no unit is lost or duplicated, and the peak in-flight count
never exceeds the budget. -/
theorem poolFold_invariant (thrN : Nat) (sched : List Nat → Nat) (l : List Nat)
    (st : PoolState) (hT : 1 ≤ thrN) (hlen : st.inFlight.length < thrN) :
    (l.foldl (poolStep thrN sched) st).inFlight.length < thrN ∧
    List.Perm
      ((l.foldl (poolStep thrN sched) st).recvd ++ (l.foldl (poolStep thrN sched) st).inFlight)
      (st.recvd ++ st.inFlight ++ l) ∧
    (l.foldl (poolStep thrN sched) st).peak ≤ max st.peak thrN := by
  induction l generalizing st with
  | nil => exact ⟨hlen, by simp, Nat.le_max_left _ _⟩
  | cons i rest ih =>
    obtain ⟨h1, h2, h3⟩ := poolStep_invariant thrN sched st i hT hlen
    obtain ⟨ih1, ih2, ih3⟩ := ih (poolStep thrN sched st i) h1
    refine ⟨by simpa using ih1, ?_, ?_⟩
    · have := ih2.trans (h2.append_right rest)
      simpa [List.append_assoc] using this
    · simp only [List.foldl_cons]
      exact ih3.trans (Nat.max_le.mpr ⟨h3, Nat.le_max_right _ _⟩)

/-- The final drain empties the in-flight set (with fuel at least the
number of in-flight units), reads each remaining unit exactly once, and
leaves the peak unchanged. -/
theorem poolDrain_spec (sched : List Nat → Nat) (f : Nat) (st : PoolState)
    (h : st.inFlight.length ≤ f) :
    (poolDrain sched f st).inFlight = [] ∧
    List.Perm (poolDrain sched f st).recvd (st.recvd ++ st.inFlight) ∧
    (poolDrain sched f st).peak = st.peak := by
  induction f generalizing st with
  | zero =>
    have : st.inFlight = [] := List.length_eq_zero.mp (Nat.le_zero.mp h)
    simp [poolDrain, this]
  | succ f ih =>
    by_cases hfl : st.inFlight = []
    · have hrecv : poolRecv sched st = st := by
        obtain ⟨fl, recvd, peak⟩ := st
        simp only at hfl
        subst hfl
        rfl
      obtain ⟨ih1, ih2, ih3⟩ := ih (poolRecv sched st) (by rw [hrecv]; simp [hfl])
      rw [poolDrain, hrecv] at *
      exact ⟨ih1, by simpa [hfl] using ih2, ih3⟩
    · have hlen := poolRecv_length sched st hfl
      obtain ⟨ih1, ih2, ih3⟩ := ih (poolRecv sched st) (by omega)
      refine ⟨ih1, ?_, by rw [poolDrain, ih3, poolRecv_peak]⟩
      rw [poolDrain]
      exact ih2.trans (by simpa using poolRecv_perm sched st)

/-- Full specification of the concurrent pool branch for any budget
`thrN ≥ 1` and any completion schedule: the peak number of in-flight
units never exceeds the budget, the results read are exactly the `n`
dispatched units (each exactly once), and when the pool returns no unit
is still in flight. -/
theorem runPool_spec (thrN : Nat) (sched : List Nat → Nat) (n : Nat) (hT : 1 ≤ thrN) :
    (runPool thrN sched n).peak ≤ thrN ∧
    List.Perm (runPool thrN sched n).recvd (List.range n) ∧
    (runPool thrN sched n).inFlight = [] := by
  obtain ⟨h1, h2, h3⟩ :=
    poolFold_invariant thrN sched (List.range n) ⟨[], [], 0⟩ hT (by simpa using hT)
  obtain ⟨d1, d2, d3⟩ :=
    poolDrain_spec sched ((List.range n).foldl (poolStep thrN sched) ⟨[], [], 0⟩).inFlight.length
      ((List.range n).foldl (poolStep thrN sched) ⟨[], [], 0⟩) (Nat.le_refl _)
  refine ⟨?_, ?_, ?_⟩
  · rw [runPool, d3]
    simpa using h3
  · rw [runPool]
    exact d2.trans (by simpa using h2)
  · rw [runPool]
    exact d1

/-! Characterization of the target index built by the empty-name scan. -/

/-- After the scan, `idMap` holds for each key the id of the LAST row in
scan order with that key. -/
theorem buildTargetIndex_idMap_eq (rows : List IdentityRow) (k : String) :
    (buildTargetIndex rows).idMap k =
      ((rows.filter (fun r => rowKey r == k)).getLast?).map IdentityRow.id := by
  induction rows using List.reverseRecOn with
  | nil => rfl
  | append_singleton rs r ih =>
    simp only [buildTargetIndex, List.foldl_append, List.foldl_cons, List.foldl_nil] at ih ⊢
    simp only [scanTargetRow, mapSet, List.filter_append]
    by_cases hk : k = rowKey r
    · have hb : (rowKey r == k) = true := by simp [hk]
      simp [hk, hb, List.getLast?_concat]
    · have hb : (rowKey r == k) = false := by
        simp [beq_eq_false_iff_ne]
        exact fun h => hk h.symm
      simp [hk, hb, ih]

/-- After the scan, `uuidMap` holds for each key the uuid of the LAST
row in scan order with that key whose uuid is non-null. -/
theorem buildTargetIndex_uuidMap_eq (rows : List IdentityRow) (k : String) :
    (buildTargetIndex rows).uuidMap k =
      ((rows.filter (fun r => rowKey r == k && r.uuid.isSome)).getLast?).bind
        IdentityRow.uuid := by
  induction rows using List.reverseRecOn with
  | nil => rfl
  | append_singleton rs r ih =>
    simp only [buildTargetIndex, List.foldl_append, List.foldl_cons, List.foldl_nil] at ih ⊢
    simp only [scanTargetRow, List.filter_append]
    cases hu : r.uuid with
    | none => simp [hu, ih]
    | some u =>
      by_cases hk : k = rowKey r
      · have hb : (rowKey r == k) = true := by simp [hk]
        simp [mapSet, hk, hb, hu, List.getLast?_concat]
      · have hb : (rowKey r == k) = false := by
          simp [beq_eq_false_iff_ne]
          exact fun h => hk h.symm
        simp [mapSet, hk, hb, hu, ih]

/-! Helper lemmas about the shared email cache. -/

/-- A cache hit makes `isValidDomain` return the cached value with the
cache unchanged, whatever the string contains. -/
theorem isValidDomain_cached (mx : String → Bool) (cache : List (String × Bool))
    (s : String) (v : Bool) (h : cache.lookup s = some v) :
    isValidDomain mx cache s = (v, cache) := by
  have hg4 : ¬ (s.length < 4 ∧ s.length > 254) := by omega
  simp [isValidDomain, hg4, h]

/-- A cache hit makes `isValidEmail` return the cached value with the
cache unchanged, whatever the string contains: no normalization and no
regex are applied. -/
theorem isValidEmail_cached (mx : String → Bool) (cache : List (String × Bool))
    (s : String) (d : Bool) (v : Bool) (h : cache.lookup s = some v) :
    isValidEmail mx cache s d = (v, cache) := by
  have hg6 : ¬ (s.length < 6 ∧ s.length > 254) := by omega
  simp [isValidEmail, hg6, h]

/-- After a cache-miss run of `isValidEmail`, the cache it leaves maps
the NORMALIZED input to the value it returned. -/
theorem isValidEmail_result_cached (mx : String → Bool) (cache : List (String × Bool))
    (s : String) (d : Bool) (hmiss : cache.lookup s = none) :
    (isValidEmail mx cache s d).2.lookup (normalizeEmail s) =
      some (isValidEmail mx cache s d).1 := by
  have hg6 : ¬ (s.length < 6 ∧ s.length > 254) := by omega
  simp only [isValidEmail, if_neg hg6, hmiss]
  by_cases hre : emailRegexMatch (normalizeEmail s).data
  · simp only [hre, if_true]
    cases d with
    | false => simp [List.lookup]
    | true =>
      cases hsp : splitOnChar '@' (normalizeEmail s).data with
      | nil => simp [List.lookup]
      | cons p rest =>
        cases rest with
        | nil => simp [List.lookup]
        | cons dpart rest2 =>
          by_cases hdv : (isValidDomain mx cache (String.mk dpart)).1 <;>
            simp [hdv, List.lookup]
  · simp [hre, List.lookup]

/-! Claim theorems. -/

/-- C1: the claim (and the spec, and the code's own comment `We merge
into first found`) says that on a duplicate canonical key the target
index keeps the first-seen (id, uuid) mapping.  Evaluating the scan of
part_002 on two rows sharing key `src:u` shows the index instead holds
the LAST-seen row's id and uuid: the assignment `idMap[key] = id` runs
unconditionally because the `continue` statement is commented out. -/
theorem targetIndex_duplicate_eval :
    (buildTargetIndex
        [{ id := "i1", uuid := some "U1", source := "src", name := none,
           username := some "u", email := none },
         { id := "i2", uuid := some "U2", source := "src", name := none,
           username := some "u", email := none }]).idMap "src:u" = some "i2" ∧
    (buildTargetIndex
        [{ id := "i1", uuid := some "U1", source := "src", name := none,
           username := some "u", email := none },
         { id := "i2", uuid := some "U2", source := "src", name := none,
           username := some "u", email := none }]).uuidMap "src:u" = some "U2" ∧
    ¬ ((buildTargetIndex
        [{ id := "i1", uuid := some "U1", source := "src", name := none,
           username := some "u", email := none },
         { id := "i2", uuid := some "U2", source := "src", name := none,
           username := some "u", email := none }]).idMap "src:u" = some "i1") ∧
    ¬ ((buildTargetIndex
        [{ id := "i1", uuid := some "U1", source := "src", name := none,
           username := some "u", email := none },
         { id := "i2", uuid := some "U2", source := "src", name := none,
           username := some "u", email := none }]).uuidMap "src:u" = some "U1") := by
  decide

/-- C9: for every canonical key seen more than once in the target scan,
`idMap` resolves to the id of the last row in scan order with that key
while `uuidMap` resolves to the uuid of the last row with that key whose
uuid is non-null — so the resolved (id, uuid) pair can come from two
different rows. -/
theorem targetIndex_last_seen (rows : List IdentityRow) (k : String)
    (hdup : 2 ≤ (rows.filter (fun r => rowKey r == k)).length) :
    (buildTargetIndex rows).idMap k =
      ((rows.filter (fun r => rowKey r == k)).getLast?).map IdentityRow.id ∧
    (buildTargetIndex rows).uuidMap k =
      ((rows.filter (fun r => rowKey r == k && r.uuid.isSome)).getLast?).bind
        IdentityRow.uuid :=
  ⟨buildTargetIndex_idMap_eq rows k, buildTargetIndex_uuidMap_eq rows k⟩

/-- Witness for C9: two rows share key `s:u`; the second has a null
uuid, so the id comes from the second row and the uuid from the first —
the resolved pair mixes two rows. -/
theorem targetIndex_last_seen_witness :
    (2 ≤ ([{ id := "a", uuid := some "U1", source := "s", name := none,
             username := some "u", email := none },
           { id := "b", uuid := none, source := "s", name := none,
             username := some "u", email := none }].filter
            (fun r => rowKey r == "s:u")).length) ∧
    (buildTargetIndex
        [{ id := "a", uuid := some "U1", source := "s", name := none,
           username := some "u", email := none },
         { id := "b", uuid := none, source := "s", name := none,
           username := some "u", email := none }]).idMap "s:u" = some "b" ∧
    (buildTargetIndex
        [{ id := "a", uuid := some "U1", source := "s", name := none,
           username := some "u", email := none },
         { id := "b", uuid := none, source := "s", name := none,
           username := some "u", email := none }]).uuidMap "s:u" = some "U1" := by
  refine ⟨by decide, ?_⟩
  have h := targetIndex_last_seen
    [{ id := "a", uuid := some "U1", source := "s", name := none,
       username := some "u", email := none },
     { id := "b", uuid := none, source := "s", name := none,
       username := some "u", email := none }] "s:u" (by decide)
  rw [h.1, h.2]
  exact ⟨by decide, by decide⟩

/-- C2: the worker decision for a repair candidate — no target entry
for the candidate's key means skip; a null candidate uuid means skip; a
candidate uuid equal to the target's means skip; otherwise the
candidate's uuid is merged into the target's uuid.  The decision is a
pure function of the built index and the candidate row. -/
theorem processIdentity_decision (uuidMap : String → Option String) (r : IdentityRow) :
    (uuidMap (rowKey r) = none → processIdentity uuidMap r = MergeDecision.skip) ∧
    (r.uuid = none → processIdentity uuidMap r = MergeDecision.skip) ∧
    (∀ u, uuidMap (rowKey r) = some u → r.uuid = some u →
      processIdentity uuidMap r = MergeDecision.skip) ∧
    (∀ u u2, r.uuid = some u → uuidMap (rowKey r) = some u2 → u ≠ u2 →
      processIdentity uuidMap r = MergeDecision.merge u u2) := by
  refine ⟨?_, ?_, ?_, ?_⟩
  · intro h
    simp [processIdentity, h]
  · intro h
    cases hm : uuidMap (rowKey r) <;> simp [processIdentity, h, hm]
  · intro u hm hu
    simp [processIdentity, hm, hu]
  · intro u u2 hu hm hne
    simp [processIdentity, hm, hu, hne]

/-- Witness for C2: the end-to-end example of the spec — target index
maps `gh:alice` to uuid `U1`, candidate `c1` has uuid `U2`, and the
decision is to merge `U2` into `U1`. -/
theorem processIdentity_decision_witness :
    processIdentity (fun q => if q = "gh:alice" then some "U1" else none)
        { id := "c1", uuid := some "U2", source := "gh", name := none,
          username := some "alice", email := none } =
      MergeDecision.merge "U2" "U1" :=
  (processIdentity_decision _ _).2.2.2 "U2" "U1" rfl (by decide) (by decide)

/-- C3 counterexample: the claim says an all-whitespace username is
treated as absent, so `key("src", " ", nil)` would be `"src"`; the code
only tests for the empty string and produces `"src: "`. -/
theorem getKey_whitespace_counterexample :
    getKey "src" (some " ") none = "src: " ∧ ¬ getKey "src" (some " ") none = "src" := by
  decide

/-- Spec-level form of the amended key contract: append `":" + c` for
each of the two optional components that is present and non-empty, in
the fixed order username then email, with no trimming. -/
def keyPart : Option String → String
  | none => ""
  | some c => if c = "" then "" else ":" ++ c

/-- Spec-level key: source, then the username part, then the email
part. -/
def keySpec (source : String) (username email : Option String) : String :=
  source ++ keyPart username ++ keyPart email

/-- C3 (amended): `key` is a pure total function appending `":"+username`
and then `":"+email` to `source`, each only when the component is
present and non-empty; empty (or absent) components are omitted, but
whitespace is NOT trimmed, so an all-whitespace component is appended
verbatim.  The four examples of the claim hold. -/
theorem getKey_amended :
    (∀ s u e, getKey s u e = keySpec s u e) ∧
    getKey "src" (some "") (some "") = "src" ∧
    getKey "src" (some "u") (some "") = "src:u" ∧
    getKey "src" (some "") (some "e@x.com") = "src:e@x.com" ∧
    getKey "src" (some "u") (some "e@x.com") = "src:u:e@x.com" := by
  refine ⟨?_, by decide, by decide, by decide, by decide⟩
  intro s u e
  cases u with
  | none =>
    cases e with
    | none => simp [getKey, keySpec, keyPart]
    | some ev =>
      by_cases he : ev = "" <;> simp [getKey, keySpec, keyPart, he, String.append_assoc]
  | some uv =>
    cases e with
    | none =>
      by_cases hu : uv = "" <;> simp [getKey, keySpec, keyPart, hu, String.append_assoc]
    | some ev =>
      by_cases hu : uv = "" <;> by_cases he : ev = "" <;>
        simp [getKey, keySpec, keyPart, hu, he, String.append_assoc]

/-- C5: for every thread budget `T ≥ 1`, every input size and every
completion schedule, the dispatcher never has more than `T` callbacks
in flight at once, every dispatched unit's result is read from the
result channel exactly once, and when the pool hands control back (to
merge reporting and orphan deletion) no unit is still in flight. -/
theorem pool_bounded_exactly_once (T : Nat) (sched : List Nat → Nat) (n : Nat) (hT : 1 ≤ T) :
    (runPool T sched n).peak ≤ T ∧
    List.Perm (runPool T sched n).recvd (List.range n) ∧
    (runPool T sched n).inFlight = [] :=
  runPool_spec T sched n hT

/-- Witness for C5 at `T = 2`, three units, a concrete schedule. -/
theorem pool_bounded_exactly_once_witness :
    1 ≤ 2 ∧
    ((runPool 2 (fun _ => 0) 3).peak ≤ 2 ∧
     List.Perm (runPool 2 (fun _ => 0) 3).recvd (List.range 3) ∧
     (runPool 2 (fun _ => 0) 3).inFlight = []) :=
  ⟨by decide, pool_bounded_exactly_once 2 (fun _ => 0) 3 (by decide)⟩

/-- C6 counterexample: the claim says a thread budget of 1 runs with no
concurrency machinery and a nil shared-counter mutex, but the code takes
the goroutine/channel branch for every `thrN > 0` and assigns the mutex
there, so at `T = 1` the channel is used and the mutex is non-nil. -/
theorem pool_T1_counterexample :
    ¬ (poolMode 1 = PoolMode.sequential ∧ poolMtxIsNil 1 = true) ∧
    poolMode 1 = PoolMode.channel ∧ poolMtxIsNil 1 = false := by
  decide

/-- C6 (amended): the pool runs fully sequentially — no goroutines, no
result channel — exactly when the thread budget is 0, and the
shared-counter mutex handle is nil exactly then; at `T = 1` the channel
branch runs but at most one callback is ever in flight. -/
theorem pool_sequential_iff_T0 :
    (∀ T, poolMode T = PoolMode.sequential ↔ T = 0) ∧
    (∀ T, poolMtxIsNil T = true ↔ T = 0) ∧
    (∀ sched n, (runPool 1 sched n).peak ≤ 1) := by
  refine ⟨?_, ?_, ?_⟩
  · intro T
    cases T <;> simp [poolMode]
  · intro T
    cases T <;> simp [poolMtxIsNil, poolMode]
  · intro sched n
    exact (runPool_spec 1 sched n (by decide)).1

/-- C7: with per-unit outcomes fixed, running the pool with budgets 1
and 8 (under any two completion schedules) yields the same final merge
counter and the same multiset of per-unit errors: concurrency changes
timing only, not the outcome. -/
theorem pool_T1_T8_same_outcome (sched1 sched8 : List Nat → Nat) (n : Nat)
    (unit : Nat → UnitOutcome) :
    poolMerges (runPool 1 sched1 n) unit = poolMerges (runPool 8 sched8 n) unit ∧
    List.Perm (poolErrors (runPool 1 sched1 n) unit)
      (poolErrors (runPool 8 sched8 n) unit) := by
  have h1 := (runPool_spec 1 sched1 n (by decide)).2.1
  have h8 := (runPool_spec 8 sched8 n (by decide)).2.1
  have hperm : List.Perm (runPool 1 sched1 n).recvd (runPool 8 sched8 n).recvd :=
    h1.trans h8.symm
  exact ⟨hperm.countP_eq _, hperm.filterMap _⟩

set_option maxRecDepth 8000

/-- C4: email validation evaluated on the claim's inputs with domain
checking disabled.  The first two results agree with the claim
(`user@sub.example.com` is valid; `" user at example dot com "`
normalizes to `user@example.com` and is valid, cached under the
normalized string).  The third input is 300 characters long and is
nevertheless VALID: the guard `l < 6 && l > 254` is unsatisfiable, so
no over-length string is ever rejected — the claimed 254-character
bound does not exist in the code. -/
theorem isValidEmail_eval :
    (isValidEmail (fun _ => false) [] "user@sub.example.com" false).1 = true ∧
    isValidEmail (fun _ => false) [] " user at example dot com " false =
      (true, [("user@example.com", true)]) ∧
    (String.mk (List.replicate 288 'a' ++ "@example.com".data)).length = 300 ∧
    (isValidEmail (fun _ => false) []
        (String.mk (List.replicate 288 'a' ++ "@example.com".data)) false).1 = true := by
  exact ⟨by decide, by decide, by decide, by decide⟩

/-- C8: in the email-cleanup unit, once the email is invalid, an update
failure whose message contains `Duplicate entry` makes the unit issue a
delete of the current row instead of returning the update error (the
unit's error is then nil whenever the delete succeeds); any other
update failure is returned as the unit's error with no delete issued. -/
theorem emailCleanup_update_failure (mx : String → Bool) (db : DbOp → Except String Nat)
    (hash : String → String → String → String → String) (vd : Bool)
    (cache : List (String × Bool)) (r : EmailRow) (e : String)
    (hinv : (isValidEmail mx cache r.email vd).1 = false)
    (hupd : db (DbOp.updateIdentity (hash r.source "" r.name r.username) r.id) =
      Except.error e) :
    (containsL e.data "Duplicate entry".data = true →
      (processEmailIdentity mx db hash vd cache r).ops =
        [DbOp.updateIdentity (hash r.source "" r.name r.username) r.id,
         DbOp.deleteIdentity r.id] ∧
      ∀ a, db (DbOp.deleteIdentity r.id) = Except.ok a →
        (processEmailIdentity mx db hash vd cache r).err = none) ∧
    (containsL e.data "Duplicate entry".data = false →
      (processEmailIdentity mx db hash vd cache r).err = some e ∧
      (processEmailIdentity mx db hash vd cache r).ops =
        [DbOp.updateIdentity (hash r.source "" r.name r.username) r.id]) := by
  constructor
  · intro hdup
    constructor
    · cases hdel : db (DbOp.deleteIdentity r.id) with
      | error e2 => simp [processEmailIdentity, hinv, hupd, hdup, hdel]
      | ok a =>
        by_cases ha : a = 0 <;>
          simp [processEmailIdentity, hinv, hupd, hdup, hdel, ha]
    · intro a hdel
      by_cases ha : a = 0 <;>
        simp [processEmailIdentity, hinv, hupd, hdup, hdel, ha]
  · intro hdup
    simp [processEmailIdentity, hinv, hupd, hdup]

/-- Witness for C8: a concrete row with an invalid email, a database
oracle whose update fails with a duplicate-entry error and whose delete
succeeds, and a concrete hash oracle. -/
theorem emailCleanup_update_failure_witness :
    ((containsL ("Duplicate entry x for key PRIMARY").data "Duplicate entry".data = true →
      (processEmailIdentity (fun _ => false)
          (fun op => match op with
            | DbOp.updateIdentity _ _ => Except.error "Duplicate entry x for key PRIMARY"
            | DbOp.deleteIdentity _ => Except.ok 1)
          (fun s e n u => s ++ ":" ++ e ++ ":" ++ n ++ ":" ++ u) false []
          { id := "id0", source := "git", name := "N", username := "U",
            email := "bad email" }).ops =
        [DbOp.updateIdentity ("git" ++ ":" ++ "" ++ ":" ++ "N" ++ ":" ++ "U") "id0",
         DbOp.deleteIdentity "id0"] ∧
      ∀ a, (fun op => match op with
            | DbOp.updateIdentity _ _ => Except.error "Duplicate entry x for key PRIMARY"
            | DbOp.deleteIdentity _ => Except.ok 1) (DbOp.deleteIdentity "id0") =
          Except.ok a →
        (processEmailIdentity (fun _ => false)
          (fun op => match op with
            | DbOp.updateIdentity _ _ => Except.error "Duplicate entry x for key PRIMARY"
            | DbOp.deleteIdentity _ => Except.ok 1)
          (fun s e n u => s ++ ":" ++ e ++ ":" ++ n ++ ":" ++ u) false []
          { id := "id0", source := "git", name := "N", username := "U",
            email := "bad email" }).err = none) ∧
    (containsL ("Duplicate entry x for key PRIMARY").data "Duplicate entry".data = false →
      (processEmailIdentity (fun _ => false)
          (fun op => match op with
            | DbOp.updateIdentity _ _ => Except.error "Duplicate entry x for key PRIMARY"
            | DbOp.deleteIdentity _ => Except.ok 1)
          (fun s e n u => s ++ ":" ++ e ++ ":" ++ n ++ ":" ++ u) false []
          { id := "id0", source := "git", name := "N", username := "U",
            email := "bad email" }).err = some "Duplicate entry x for key PRIMARY" ∧
      (processEmailIdentity (fun _ => false)
          (fun op => match op with
            | DbOp.updateIdentity _ _ => Except.error "Duplicate entry x for key PRIMARY"
            | DbOp.deleteIdentity _ => Except.ok 1)
          (fun s e n u => s ++ ":" ++ e ++ ":" ++ n ++ ":" ++ u) false []
          { id := "id0", source := "git", name := "N", username := "U",
            email := "bad email" }).ops =
        [DbOp.updateIdentity ("git" ++ ":" ++ "" ++ ":" ++ "N" ++ ":" ++ "U") "id0"])) :=
  emailCleanup_update_failure (fun _ => false)
    (fun op => match op with
      | DbOp.updateIdentity _ _ => Except.error "Duplicate entry x for key PRIMARY"
      | DbOp.deleteIdentity _ => Except.ok 1)
    (fun s e n u => s ++ ":" ++ e ++ ":" ++ n ++ ":" ++ u) false []
    { id := "id0", source := "git", name := "N", username := "U", email := "bad email" }
    "Duplicate entry x for key PRIMARY" (by decide) rfl

/-- C10 counterexample: the claim says a cached `isValidEmail` result
for `s` is returned by a later `isValidDomain(s)`.  But `isValidEmail`
stores its result under the NORMALIZED string (the Go deferred store
reads the mutated `email` variable), so for
`s = " user at example dot com "` the email call returns true and
caches `("user@example.com", true)`, the raw `s` is absent from the
cache, and a later `isValidDomain(s)` misses the cache and returns the
MX-oracle answer (false here) instead of the cached true. -/
theorem emailsCache_counterexample :
    (isValidEmail (fun _ => false) [] " user at example dot com " false).1 = true ∧
    ((isValidEmail (fun _ => false) [] " user at example dot com " false).2.lookup
        " user at example dot com ") = none ∧
    (isValidDomain (fun _ => false)
        (isValidEmail (fun _ => false) [] " user at example dot com " false).2
        " user at example dot com ").1 = false := by
  decide

/-- C10 (amended): the two validators share the one `emailsCache` map
and both probe it, keyed by the raw input, before validating: a cached
result `v` for `s` is returned unchanged by either function with no
validation.  `isValidDomain` stores its result under the raw input, so
a later `isValidEmail(s, d)` always returns it; `isValidEmail` stores
its result under the normalized string, so a later `isValidDomain(s)`
returns the cached email result only when normalization leaves `s`
unchanged. -/
theorem emailsCache_shared_amended (mx : String → Bool) (cache : List (String × Bool))
    (s : String) (d : Bool) :
    (∀ v, cache.lookup s = some v →
      isValidEmail mx cache s d = (v, cache) ∧ isValidDomain mx cache s = (v, cache)) ∧
    (cache.lookup s = none →
      isValidEmail mx (isValidDomain mx cache s).2 s d =
        ((isValidDomain mx cache s).1, (isValidDomain mx cache s).2)) ∧
    (cache.lookup s = none → normalizeEmail s = s →
      isValidDomain mx (isValidEmail mx cache s d).2 s =
        ((isValidEmail mx cache s d).1, (isValidEmail mx cache s d).2)) := by
  have hg4 : ¬ (s.length < 4 ∧ s.length > 254) := by omega
  refine ⟨?_, ?_, ?_⟩
  · intro v hv
    exact ⟨isValidEmail_cached mx cache s d v hv, isValidDomain_cached mx cache s v hv⟩
  · intro hmiss
    have hdom : isValidDomain mx cache s = (mx s, (s, mx s) :: cache) := by
      simp [isValidDomain, hg4, hmiss]
    rw [hdom]
    exact isValidEmail_cached mx _ s d (mx s) (by simp [List.lookup])
  · intro hmiss hnorm
    have hc := isValidEmail_result_cached mx cache s d hmiss
    rw [hnorm] at hc
    exact isValidDomain_cached mx _ s _ hc

/-- Witness for C10: with `("abc", true)` cached, both validators
return true for `"abc"` — a string neither of them would validate —
without touching the MX oracle; and the round-trip conjuncts applied
at a concrete miss. -/
theorem emailsCache_shared_amended_witness :
    isValidEmail (fun _ => false) [("abc", true)] "abc" false = (true, [("abc", true)]) ∧
    isValidDomain (fun _ => false) [("abc", true)] "abc" = (true, [("abc", true)]) :=
  (emailsCache_shared_amended (fun _ => false) [("abc", true)] "abc" false).1 true (by decide)

end CleanupProfiles
